import Mathlib

/-!
Shallow embedding of the transport/protocol core of `blockchain-libs`:
the JSON-RPC request engine, the `SimpleClient` fan-out adapter
(`src/provider/abc.ts`), the Starcoin client (`starcoin.ts`) and the
`ProviderController` client-resolution logic.

JSON values are modelled by an inductive `JsValue`; JavaScript objects
are association lists of string-keyed fields (a parsed JSON object has
pairwise distinct keys, so first-match lookup agrees with field access).
Promises are modelled by their settled outcome: a fulfilled value or a
rejection reason.
-/

/-- A JSON value, as produced by `JSON.parse`. `undefined` is represented
by wrapping `JsValue` in `Option` where the code distinguishes it. -/
inductive JsValue where
  | null : JsValue
  | bool : Bool → JsValue
  | num : Int → JsValue
  | str : String → JsValue
  | arr : List JsValue → JsValue
  | obj : List (String × JsValue) → JsValue

/-- First-match lookup of a field in an object field list (JavaScript
property access on a parsed object). -/
def assocLookup (key : String) : List (String × JsValue) → Option JsValue
  | [] => none
  | (k, v) :: rest => if k = key then some v else assocLookup key rest

/-- Field access `v[key]` on a JSON value: `none` (undefined) when `v`
is not an object or the key is missing. -/
def JsValue.field (v : JsValue) (key : String) : Option JsValue :=
  match v with
  | .obj fields => assocLookup key fields
  | _ => none

namespace JsonRPCRequest

/-- An error rejected by the JSON-RPC engine: `response` is a
`ResponseError` with its message; `jsonRpc` is a `JsonPRCResponseError`
carrying the remote error object (its `errorCode` / `errorMessage`). -/
inductive RequestError where
  | response : String → RequestError
  | jsonRpc : String → JsValue → RequestError

/-- Modelled from the spec: the request envelope
`{"jsonrpc":"2.0","id":<id>,"method":<method>,"params":<params>}`
built by the JSON-RPC engine (`src/basic/request/json-rpc.ts`, whose
source is absent here; the unit tests pin the exact shape). -/
def rpcEnvelope (id : Nat) (method : String) (params : JsValue) : JsValue :=
  .obj [("jsonrpc", .str ("2.0")), ("id", .num (Int.ofNat id)),
        ("method", .str method), ("params", params)]

/-- Modelled from the spec: a single `call` always sends one envelope
with id 0; id assignment is local to the call (the engine keeps no
counter, so this is a pure function of the call). -/
def singleCallBody (method : String) (params : JsValue) : JsValue :=
  rpcEnvelope 0 method params

/-- Modelled from the spec: `batchCall` sends a JSON array of envelopes
whose ids are the zero-based positions of the calls, in request order. -/
def batchCallBody (calls : List (String × JsValue)) : JsValue :=
  .arr (calls.enum.map (fun p => rpcEnvelope p.1 p.2.1 p.2.2))

/-- Modelled from the spec: result extraction from one parsed response
object. If the `error` field is present the call rejects with the
JSON-RPC protocol error carrying the remote error object, irrespective
of `result`; else if the `result` key is absent it rejects with
"result not found"; else the `result` value is returned verbatim
(`result: null` is a successful `null`). Message texts are pinned by
the unit tests. -/
def parseRPCResponse (resp : JsValue) : Except RequestError JsValue :=
  match resp.field ("error") with
  | some e => .error (.jsonRpc ("Error JSON PRC response") e)
  | none =>
    match resp.field ("result") with
    | some r => .ok r
    | none => .error (.response ("Invalid JSON RPC response, result not found"))

/-- Modelled from the spec: a batch response must be a JSON array of
exactly the same length as the batch request; each element is extracted
with the single-call rule, correlated strictly by array position.
Message texts are pinned by the unit tests. -/
def parseBatchResponse (n : Nat) (resp : JsValue) :
    Except RequestError (List (Except RequestError JsValue)) :=
  match resp with
  | .arr xs =>
    if xs.length = n then
      .ok (xs.map parseRPCResponse)
    else
      let m := xs.length
      .error (.response
        (s!"Invalid JSON Batch RPC response, batch with {n} calls, but got {m} responses"))
  | _ => .error (.response ("Invalid JSON Batch RPC response, response should be an array"))

end JsonRPCRequest

/-- The settled outcome of a promise, as reported by
`Promise.allSettled`: fulfilled with a value or rejected with a reason.
A handler of type `(input: T) => Promise<R | undefined>` may fulfil
with `undefined`, so the fulfilled slot carries an `Option R`. -/
inductive SettledResult (R : Type) where
  | fulfilled : Option R → SettledResult R
  | rejected : String → SettledResult R
deriving DecidableEq

/-- The value the fan-out adapter keeps for one settled handler call:
the fulfilled value (possibly `undefined`, i.e. `none`), or `none` for
a rejection. -/
def SettledResult.value {R : Type} : SettledResult R → Option R
  | .fulfilled v => v
  | .rejected _ => none

namespace SimpleClient

/-- `check` from `src/basic/precondtion.ts`: throws with the message
when the condition is false. -/
def check (cond : Bool) (msg : String) : Except String Unit :=
  if cond then .ok () else .error msg

/-- `SimpleClient.batchCall2SingleCall` (`src/provider/abc.ts` lines
57-80): settle one handler call per input (`Promise.allSettled`, so a
rejection never aborts the sibling calls), assert the output count
equals the input count (a fatal defensive check), then keep each
fulfilled value and map each rejected slot to `undefined` (`none`),
logging the failure. The handler is modelled by the settled outcome it
produces for each input. -/
def batchCall2SingleCall {T R : Type} (inputs : List T)
    (handler : T → SettledResult R) : Except String (List (Option R)) := do
  let outputs := inputs.map handler
  let k := inputs.length
  let m := outputs.length
  let _ ← check (k = m) (s!"Batch call {k} requests, but received {m} results")
  return outputs.map (fun r =>
    match r with
    | .fulfilled v => v
    | .rejected _ => none)

/-- JavaScript object assignment `acc[k] = v` on an association list:
overwrite the entry for `k` when present, append otherwise. -/
def objSet {V : Type} (m : List (String × V)) (k : String) (v : V) :
    List (String × V) :=
  if m.any (fun p => p.1 = k) then
    m.map (fun p => if p.1 = k then (k, v) else p)
  else
    m ++ [(k, v)]

/-- JavaScript object read `m[k]` on an association list: the value of
the (unique) entry for `k`, `none` (undefined) when absent. -/
def objGet {V : Type} : List (String × V) → String → Option V
  | [], _ => none
  | (k, v) :: rest, a => if k = a then some v else objGet rest a

/-- `SimpleClient.getUTXOs` (`src/provider/abc.ts` lines 124-135):
fan out `getUTXO` over the addresses, then reduce the results into an
object keyed by address, using the empty list for an absent result
(`utxos || []`). The source indexes `addresses[index]`; since the
fan-out preserves length this is the positional zip. -/
def getUTXOs {U : Type} (addresses : List String)
    (getUTXO : String → SettledResult (List U)) :
    Except String (List (String × List U)) := do
  let result ← batchCall2SingleCall addresses getUTXO
  return (addresses.zip result).foldl
    (fun acc p => objSet acc p.1 (p.2.getD [])) []

end SimpleClient

namespace StcClient

/-- `StcClient.broadcastTransaction` (`starcoin.ts` lines 139-144)
after the RPC call resolved with `txid`: it resolves with
`typeof txid === 'string' && txid.length === 66`, a total Boolean
function of the RPC result. -/
def broadcastTransaction (txid : JsValue) : Bool :=
  match txid with
  | .str s => s.length = 66
  | _ => false

end StcClient

namespace ProviderController

/-- `ClientInfo` as returned by `getInfo`. -/
structure ClientInfo where
  bestBlockNumber : Int
  isReady : Bool

/-- One candidate client of the per-chain pool, together with the
behaviour of its `getInfo()` health check in this resolution attempt:
`client` identifies the client object, `settleTime` is the time (ms)
at which the check settles, and `getInfo` is its outcome (`none` when
the call rejects). -/
structure Candidate where
  client : Nat
  settleTime : Nat
  getInfo : Option ClientInfo

/-- A candidate's mapped promise in the readiness race fulfils exactly
when its `getInfo` fulfilled with `isReady: true`; a response with
`isReady: false` is turned into a rejection (`getClient` lines 81-85). -/
def fulfilsReady (c : Candidate) : Bool :=
  match c.getInfo with
  | some info => info.isReady
  | none => false

/-- Modelled from the spec: `createAnyPromise`
(`src/basic/promise-plus.ts`, absent here) resolves with the first of
its promises to fulfil — here the candidate fulfilling `isReady: true`
with the least settle time, earlier-listed candidates winning ties —
and rejects when all reject. -/
def firstReady : List Candidate → Option Candidate
  | [] => none
  | c :: rest =>
    match firstReady rest with
    | none => if fulfilsReady c then some c else none
    | some b =>
      if fulfilsReady c && decide (c.settleTime ≤ b.settleTime) then some c
      else some b

/-- Modelled from the spec: `Promise.race` of the readiness race
against `createDelayPromise(10000, undefined)` (`getClient` lines
76-91). The race yields a client only when some candidate fulfils
ready strictly before the 10 s delay; a rejection of the whole
`createAnyPromise` is caught (line 92-94) and likewise leaves the
client `undefined`. -/
def raceResult (cands : List Candidate) : Option Candidate :=
  match firstReady cands with
  | some c => if c.settleTime < 10000 then some c else none
  | none => none

/-- `typeof lastClient !== undefined` (`getClient` line 49): `typeof`
yields a string, and a string never equals the `undefined` value, so
this test is always true (the source presumably meant the string
literal "undefined"). -/
def typeofClientNotUndefined : Bool := true

/-- The cache test of `getClient` lines 48-52 for one chain code: the
cache entry `[lastClient, expiredAt]` (or `[]` when absent, in which
case `undefined <= Date.now()` is false) passes when
`typeof lastClient !== undefined && expiredAt <= Date.now() &&
filter(lastClient)`. -/
def cacheHitB (now : Nat) (filterF : Nat → Bool) :
    Option (Nat × Nat) → Bool
  | some (lastClient, expiredAt) =>
    typeofClientNotUndefined && decide (expiredAt ≤ now) && filterF lastClient
  | none => false

/-- What one `getClient` call produced: its result (the resolved
client, or the thrown error message), the number of `getInfo`
readiness checks it issued, and the `lastClientCache` entry for the
chain code after the call. -/
structure GetClientOutcome where
  result : Except String Nat
  readinessChecks : Nat
  cacheAfter : Option (Nat × Nat)

/-- The readiness-race arm of `getClient` (lines 73-101): filter the
pool, issue one `getInfo` per passing candidate, race them against the
10 s delay; with no winner throw "No available client" (leaving the
cache untouched), otherwise cache the winner until `now + 300000`
("Expired at 5 minutes", line 100), replacing any prior entry
wholesale. -/
def resolveByRace (now : Nat) (filterF : Nat → Bool)
    (clients : List Candidate) (cache : Option (Nat × Nat)) :
    GetClientOutcome :=
  let candidates := clients.filter (fun c => filterF c.client)
  match raceResult candidates with
  | some c => ⟨.ok c.client, candidates.length, some (c.client, now + 300000)⟩
  | none => ⟨.error ("No available client"), candidates.length, cache⟩

/-- `ProviderController.getClient` (lines 41-102) for one chain code.
`clients` is the per-chain candidate pool (`clientsCache[chainCode]`
after the lazy construction of lines 56-71, which builds it from the
chain configuration; the claims under study take the pool as given)
and `cache` is `lastClientCache[chainCode]`. When the cache test of
lines 48-52 passes the cached client is returned with no readiness
check; otherwise the readiness race runs. -/
def getClient (now : Nat) (filterF : Nat → Bool)
    (clients : List Candidate) (cache : Option (Nat × Nat)) :
    GetClientOutcome :=
  match cache with
  | some (lastClient, expiredAt) =>
    if typeofClientNotUndefined && decide (expiredAt ≤ now)
        && filterF lastClient then
      ⟨.ok lastClient, 0, cache⟩
    else
      resolveByRace now filterF clients cache
  | none => resolveByRace now filterF clients cache

end ProviderController

namespace SimpleClient

theorem settled_collapse_eq_value {R : Type} :
    (fun r : SettledResult R => match r with
      | .fulfilled v => v
      | .rejected _ => none) = SettledResult.value := by
  funext r
  cases r <;> rfl

theorem batchCall2SingleCall_eq {T R : Type} (inputs : List T)
    (handler : T → SettledResult R) :
    batchCall2SingleCall inputs handler =
      .ok (inputs.map (fun x => (handler x).value)) := by
  unfold batchCall2SingleCall check
  simp [List.length_map, List.map_map, settled_collapse_eq_value,
    Function.comp_def]

end SimpleClient

namespace SimpleClient

theorem objGet_map_setEntry_ne {V : Type} (m : List (String × V))
    (k a : String) (v : V) (h : a ≠ k) :
    objGet (m.map (fun p => if p.1 = k then (k, v) else p)) a = objGet m a := by
  induction m with
  | nil => rfl
  | cons p rest ih =>
    obtain ⟨pk, pv⟩ := p
    rw [List.map_cons]
    by_cases hp : pk = k
    · rw [if_pos hp]
      subst hp
      show (if pk = a then some v else _) = if pk = a then some pv else _
      rw [if_neg (Ne.symm h), if_neg (Ne.symm h)]
      exact ih
    · rw [if_neg hp]
      show (if pk = a then some pv else _) = if pk = a then some pv else _
      by_cases hpa : pk = a
      · rw [if_pos hpa, if_pos hpa]
      · rw [if_neg hpa, if_neg hpa]
        exact ih

theorem objGet_map_setEntry_self {V : Type} (m : List (String × V))
    (k : String) (v : V) (hany : m.any (fun p => p.1 = k) = true) :
    objGet (m.map (fun p => if p.1 = k then (k, v) else p)) k = some v := by
  induction m with
  | nil => simp at hany
  | cons p rest ih =>
    obtain ⟨pk, pv⟩ := p
    rw [List.map_cons]
    by_cases hp : pk = k
    · rw [if_pos hp]
      show (if k = k then some v else _) = some v
      rw [if_pos rfl]
    · have hrest : rest.any (fun p => p.1 = k) = true := by
        simpa [List.any_cons, hp] using hany
      rw [if_neg hp]
      show (if pk = k then some pv else _) = some v
      rw [if_neg hp]
      exact ih hrest

theorem objGet_append_some {V : Type} {m : List (String × V)} {a : String}
    {v : V} (h : objGet m a = some v) (l : List (String × V)) :
    objGet (m ++ l) a = some v := by
  induction m with
  | nil => simp [objGet] at h
  | cons p rest ih =>
    obtain ⟨pk, pv⟩ := p
    by_cases hp : pk = a
    · simp [objGet, hp] at h ⊢
      exact h
    · simp [objGet, hp] at h ⊢
      exact ih h

theorem objGet_append_none {V : Type} {m : List (String × V)} {a : String}
    (h : objGet m a = none) (l : List (String × V)) :
    objGet (m ++ l) a = objGet l a := by
  induction m with
  | nil => rfl
  | cons p rest ih =>
    obtain ⟨pk, pv⟩ := p
    by_cases hp : pk = a
    · simp [objGet, hp] at h
    · simp [objGet, hp] at h ⊢
      exact ih h

theorem objGet_eq_none_of_not_mem {V : Type} (m : List (String × V))
    (a : String) (h : ∀ p ∈ m, p.1 ≠ a) : objGet m a = none := by
  induction m with
  | nil => rfl
  | cons p rest ih =>
    obtain ⟨pk, pv⟩ := p
    have hpk : pk ≠ a := h (pk, pv) (List.mem_cons_self _ _)
    simp [objGet, hpk]
    exact ih (fun q hq => h q (List.mem_cons_of_mem _ hq))

theorem objGet_objSet {V : Type} (m : List (String × V)) (k a : String)
    (v : V) :
    objGet (objSet m k v) a = if a = k then some v else objGet m a := by
  unfold objSet
  by_cases hany : m.any (fun p => p.1 = k) = true
  · rw [if_pos hany]
    by_cases hak : a = k
    · subst hak
      simp [objGet_map_setEntry_self m a v hany]
    · simp [hak, objGet_map_setEntry_ne m k a v hak]
  · rw [if_neg hany]
    have hnone : objGet m k = none := by
      refine objGet_eq_none_of_not_mem m k (fun p hp => ?_)
      intro hpk
      exact hany (List.any_eq_true.mpr ⟨p, hp, by simp [hpk]⟩)
    by_cases hak : a = k
    · subst hak
      rw [objGet_append_none hnone]
      simp [objGet]
    · cases hg : objGet m a with
      | none =>
        rw [objGet_append_none hg]
        simp [objGet, Ne.symm hak, hak]
      | some x =>
        rw [objGet_append_some hg]
        simp [hak, hg]

end SimpleClient

namespace SimpleClient

theorem keys_map_setEntry {V : Type} (m : List (String × V)) (k : String)
    (v : V) :
    (m.map (fun p => if p.1 = k then (k, v) else p)).map Prod.fst =
      m.map Prod.fst := by
  induction m with
  | nil => rfl
  | cons p rest ih =>
    obtain ⟨pk, pv⟩ := p
    rw [List.map_cons, List.map_cons, List.map_cons]
    by_cases hp : pk = k
    · rw [if_pos hp, ih]
      show k :: _ = pk :: _
      rw [hp]
    · rw [if_neg hp, ih]

theorem keys_objSet {V : Type} (m : List (String × V)) (k : String) (v : V) :
    (objSet m k v).map Prod.fst =
      if m.any (fun p => p.1 = k) = true then m.map Prod.fst
      else m.map Prod.fst ++ [k] := by
  unfold objSet
  by_cases hany : m.any (fun p => p.1 = k) = true
  · rw [if_pos hany, if_pos hany, keys_map_setEntry]
  · rw [if_neg hany, if_neg hany, List.map_append]
    rfl

theorem not_mem_keys_of_any_false {V : Type} (m : List (String × V))
    (k : String) (hany : ¬ m.any (fun p => p.1 = k) = true) :
    k ∉ m.map Prod.fst := by
  intro hk
  rcases List.mem_map.mp hk with ⟨p, hp, hpk⟩
  exact hany (List.any_eq_true.mpr ⟨p, hp, by simp [hpk]⟩)

theorem nodup_keys_objSet {V : Type} (m : List (String × V)) (k : String)
    (v : V) (h : (m.map Prod.fst).Nodup) :
    ((objSet m k v).map Prod.fst).Nodup := by
  rw [keys_objSet]
  by_cases hany : m.any (fun p => p.1 = k) = true
  · rw [if_pos hany]
    exact h
  · rw [if_neg hany]
    refine List.Nodup.append h (List.nodup_singleton k) ?_
    intro b hb hbk
    have hbx : b = k := by simpa using hbk
    subst hbx
    exact not_mem_keys_of_any_false m b hany hb

theorem objGet_foldl_objSet {V : Type} (as : List String) (val : String → V)
    (acc : List (String × V)) (a : String) :
    objGet (as.foldl (fun m x => objSet m x (val x)) acc) a =
      if a ∈ as then some (val a) else objGet acc a := by
  induction as generalizing acc with
  | nil => simp
  | cons x rest ih =>
    rw [List.foldl_cons, ih]
    by_cases hr : a ∈ rest
    · rw [if_pos hr, if_pos (List.mem_cons_of_mem x hr)]
    · rw [if_neg hr, objGet_objSet]
      by_cases hax : a = x
      · rw [if_pos hax, if_pos (by rw [hax]; exact List.mem_cons_self x rest),
          hax]
      · rw [if_neg hax, if_neg (by simp [List.mem_cons, hax, hr])]

theorem nodup_keys_foldl {V : Type} (as : List String) (val : String → V)
    (acc : List (String × V)) (h : (acc.map Prod.fst).Nodup) :
    ((as.foldl (fun m x => objSet m x (val x)) acc).map Prod.fst).Nodup := by
  induction as generalizing acc with
  | nil => exact h
  | cons x rest ih => exact ih _ (nodup_keys_objSet _ _ _ h)

theorem mem_keys_foldl {V : Type} (as : List String) (val : String → V)
    (acc : List (String × V)) (b : String)
    (h : b ∈ (as.foldl (fun m x => objSet m x (val x)) acc).map Prod.fst) :
    b ∈ as ∨ b ∈ acc.map Prod.fst := by
  induction as generalizing acc with
  | nil => exact Or.inr h
  | cons x rest ih =>
    rw [List.foldl_cons] at h
    rcases ih _ h with h1 | h1
    · exact Or.inl (List.mem_cons_of_mem x h1)
    · rw [keys_objSet] at h1
      by_cases hany : acc.any (fun p => p.1 = x) = true
      · rw [if_pos hany] at h1
        exact Or.inr h1
      · rw [if_neg hany] at h1
        rcases List.mem_append.mp h1 with h2 | h2
        · exact Or.inr h2
        · have hbx : b = x := by simpa using h2
          exact Or.inl (hbx ▸ List.mem_cons_self x rest)

theorem mem_keys_of_objGet_some {V : Type} {m : List (String × V)}
    {a : String} {v : V} (h : objGet m a = some v) :
    a ∈ m.map Prod.fst := by
  induction m with
  | nil => simp [objGet] at h
  | cons p rest ih =>
    obtain ⟨pk, pv⟩ := p
    rw [List.map_cons]
    by_cases hp : pk = a
    · subst hp
      exact List.mem_cons_self _ _
    · simp only [objGet] at h
      rw [if_neg hp] at h
      exact List.mem_cons_of_mem _ (ih h)

end SimpleClient

namespace ProviderController

theorem firstReady_mem_ready : ∀ {cands : List Candidate} {c : Candidate},
    firstReady cands = some c → c ∈ cands ∧ fulfilsReady c = true := by
  intro cands
  induction cands with
  | nil =>
    intro c h
    simp [firstReady] at h
  | cons x rest ih =>
    intro c h
    rw [firstReady] at h
    cases hr : firstReady rest with
    | none =>
      rw [hr] at h
      dsimp only at h
      by_cases hx : fulfilsReady x = true
      · rw [if_pos hx] at h
        cases h
        exact ⟨List.mem_cons_self _ _, hx⟩
      · rw [if_neg hx] at h
        cases h
    | some b =>
      rw [hr] at h
      dsimp only at h
      rcases ih hr with ⟨hb1, hb2⟩
      by_cases hx : (fulfilsReady x && decide (x.settleTime ≤ b.settleTime)) = true
      · rw [if_pos hx] at h
        cases h
        exact ⟨List.mem_cons_self _ _, ((Bool.and_eq_true _ _).mp hx).1⟩
      · rw [if_neg hx] at h
        cases h
        exact ⟨List.mem_cons_of_mem _ hb1, hb2⟩

theorem raceResult_none {cands : List Candidate}
    (h : ∀ c ∈ cands, fulfilsReady c = false ∨ 10000 ≤ c.settleTime) :
    raceResult cands = none := by
  unfold raceResult
  cases hf : firstReady cands with
  | none => rfl
  | some c =>
    rcases firstReady_mem_ready hf with ⟨hmem, hready⟩
    rcases h c hmem with h1 | h1
    · rw [hready] at h1
      cases h1
    · dsimp only
      rw [if_neg (by omega)]

theorem getClient_eq_resolveByRace {now : Nat} {filterF : Nat → Bool}
    {clients : List Candidate} {cache : Option (Nat × Nat)}
    (h : cacheHitB now filterF cache = false) :
    getClient now filterF clients cache =
      resolveByRace now filterF clients cache := by
  cases cache with
  | none => rfl
  | some p =>
    obtain ⟨lastClient, expiredAt⟩ := p
    have hc : (typeofClientNotUndefined && decide (expiredAt ≤ now)
        && filterF lastClient) = false := h
    simp only [getClient, hc]
    rfl

end ProviderController

namespace ProviderController

/-- C1: the claim states that an unexpired, filter-accepted cached
entry is returned immediately with zero readiness checks. The code
contradicts it: its cache test (`getClient` lines 48-52) compares
`expiredAt <= Date.now()`, the reverse of unexpired, while line 100
stores `Date.now() + 300000` with the comment "Expired at 5 minutes" —
so the claim is the evident intent and the code a slip. At time 1000
the unexpired entry (client 7, expiry 301000) is skipped, one
`getInfo` readiness check is issued and the race winner (client 5)
is returned; at time 400000 the expired entry is returned with zero
checks. -/
theorem getClient_cache_check_inverted :
    getClient 1000 (fun _ => true) [⟨5, 100, some ⟨42, true⟩⟩]
        (some (7, 301000)) =
      ⟨.ok 5, 1, some (5, 301000)⟩ ∧
    getClient 400000 (fun _ => true) [⟨5, 100, some ⟨42, true⟩⟩]
        (some (7, 301000)) =
      ⟨.ok 7, 0, some (7, 301000)⟩ :=
  ⟨rfl, rfl⟩

/-- C2: when the cache test does not short-circuit and every
filter-passing candidate either has an erroring `getInfo`, or reports
`isReady: false`, or only fulfils ready once the fixed 10 s delay has
settled, `getClient` throws exactly "No available client", issues
exactly one readiness check per passing candidate (no internal retry),
and leaves the cached entry untouched. -/
theorem getClient_no_available_client
    (now : Nat) (filterF : Nat → Bool) (clients : List Candidate)
    (cache : Option (Nat × Nat))
    (hcache : cacheHitB now filterF cache = false)
    (hall : ∀ c ∈ clients.filter (fun c => filterF c.client),
      c.getInfo = none ∨
        (∃ info, c.getInfo = some info ∧ info.isReady = false) ∨
        10000 ≤ c.settleTime) :
    getClient now filterF clients cache =
      ⟨.error ("No available client"),
        (clients.filter (fun c => filterF c.client)).length, cache⟩ := by
  rw [getClient_eq_resolveByRace hcache]
  have hnone : raceResult (clients.filter (fun c => filterF c.client)) = none := by
    refine raceResult_none (fun c hc => ?_)
    rcases hall c hc with h1 | h1 | h1
    · left
      unfold fulfilsReady
      rw [h1]
    · rcases h1 with ⟨info, hinfo, hready⟩
      left
      unfold fulfilsReady
      rw [hinfo]
      exact hready
    · right
      exact h1
  simp only [resolveByRace, hnone]

/-- Witness for C2 at a concrete pool exercising all three no-winner
modes at once: a not-ready candidate, an erroring candidate, and a
candidate fulfilling ready only after the 10 s delay settles. -/
theorem getClient_no_available_client_witness :
    getClient 0 (fun _ => true)
        [⟨1, 5, some ⟨0, false⟩⟩, ⟨2, 7, none⟩, ⟨3, 20000, some ⟨9, true⟩⟩]
        none =
      ⟨.error ("No available client"), 3, none⟩ :=
  getClient_no_available_client 0 (fun _ => true)
    [⟨1, 5, some ⟨0, false⟩⟩, ⟨2, 7, none⟩, ⟨3, 20000, some ⟨9, true⟩⟩]
    none rfl (by
      intro c hc
      have hmem := (List.mem_filter.mp hc).1
      simp only [List.mem_cons, List.not_mem_nil, or_false] at hmem
      rcases hmem with h | h | h <;> subst h
      · exact Or.inr (Or.inl ⟨⟨0, false⟩, rfl, rfl⟩)
      · exact Or.inl rfl
      · exact Or.inr (Or.inr (by decide)))

/-- C8: whenever the cache test does not short-circuit and `getClient`
resolves successfully (its result is `.ok c`), the cached entry for
the chain code afterwards is exactly `{client c, now + 300000}`
(5-minute TTL), wholesale, whatever the prior entry was. -/
theorem getClient_caches_winner
    (now : Nat) (filterF : Nat → Bool) (clients : List Candidate)
    (cache : Option (Nat × Nat)) (c : Nat)
    (hcache : cacheHitB now filterF cache = false)
    (hok : (getClient now filterF clients cache).result = .ok c) :
    (getClient now filterF clients cache).cacheAfter =
      some (c, now + 300000) := by
  rw [getClient_eq_resolveByRace hcache] at hok ⊢
  cases hw : raceResult (clients.filter (fun c => filterF c.client)) with
  | none =>
    simp only [resolveByRace, hw] at hok
    exact Except.noConfusion hok
  | some w =>
    simp only [resolveByRace, hw] at hok ⊢
    injection hok with h
    rw [h]

/-- Witness for C8: a race winner (client 5) at time 0 replaces a
prior, unexpired cached entry (client 9, expiry 5000) wholesale with
`(5, 300000)`. -/
theorem getClient_caches_winner_witness :
    (getClient 0 (fun _ => true) [⟨5, 100, some ⟨1, true⟩⟩]
        (some (9, 5000))).cacheAfter = some (5, 300000) :=
  getClient_caches_winner 0 (fun _ => true) [⟨5, 100, some ⟨1, true⟩⟩]
    (some (9, 5000)) 5 rfl rfl

end ProviderController

namespace SimpleClient

/-- C3 counterexample: a handler of type `Promise<R | undefined>` may
fulfil with `undefined` (the repository's `getTokenInfo` does exactly
that). On input `[0]` with a handler that fulfils with `undefined`,
the adapter outputs absent at index 0 although the call at index 0 did
not fail — refuting "absent exactly at the indices whose underlying
single-item call failed". -/
theorem batchCall2SingleCall_absent_without_failure :
    batchCall2SingleCall [0]
        (fun _ : Nat => SettledResult.fulfilled (none : Option Nat)) =
      .ok [none] ∧
    (fun _ : Nat => SettledResult.fulfilled (none : Option Nat)) 0 =
      SettledResult.fulfilled none :=
  ⟨rfl, rfl⟩

/-- C3 (amended): for every input list and handler, the fan-out
adapter succeeds (its defensive count check passes) and its output is
positionally the collapse of each call's settled outcome: the
fulfilled value where the call fulfilled (absent exactly when that
value was itself absent) and absent where the call was rejected — so
the output length always equals the input length and a failing item
never disturbs its siblings' slots. -/
theorem batchCall2SingleCall_pointwise {T R : Type} (inputs : List T)
    (handler : T → SettledResult R) :
    batchCall2SingleCall inputs handler =
      .ok (inputs.map (fun x => (handler x).value)) ∧
    (inputs.map (fun x => (handler x).value)).length = inputs.length :=
  ⟨batchCall2SingleCall_eq inputs handler, List.length_map _ _⟩

theorem zip_self_map {α β : Type} (l : List α) (f : α → β) :
    l.zip (l.map f) = l.map (fun a => (a, f a)) := by
  induction l with
  | nil => rfl
  | cons x xs ih => simp [ih]

theorem getUTXOs_eq {U : Type} (addresses : List String)
    (g : String → SettledResult (List U)) :
    getUTXOs addresses g =
      .ok (addresses.foldl
        (fun acc a => objSet acc a (((g a).value).getD [])) []) := by
  unfold getUTXOs
  rw [batchCall2SingleCall_eq]
  show Except.ok
      ((addresses.zip (addresses.map (fun x => (g x).value))).foldl
        (fun acc p => objSet acc p.1 (p.2.getD [])) []) = _
  rw [zip_self_map, List.foldl_map]

/-- C10: `getUTXOs` always succeeds, and the returned object has
exactly one entry per input address, whose value is the fulfilled
UTXO list of that address's `getUTXO` call with the empty list
substituted for an absent outcome; every key of the object is an input
address; and an address whose call was rejected maps to the empty
list, indistinguishable from an address fulfilling no UTXOs. -/
theorem getUTXOs_one_entry_per_address {U : Type} (addresses : List String)
    (g : String → SettledResult (List U)) :
    ∃ m, getUTXOs addresses g = .ok m ∧
      (∀ a ∈ addresses,
        objGet m a = some (((g a).value).getD []) ∧
        (m.map Prod.fst).count a = 1) ∧
      (∀ b ∈ m.map Prod.fst, b ∈ addresses) ∧
      (∀ a ∈ addresses, ∀ msg, g a = .rejected msg →
        objGet m a = some []) := by
  refine ⟨addresses.foldl
      (fun acc a => objSet acc a (((g a).value).getD [])) [],
    getUTXOs_eq addresses g, ?_, ?_, ?_⟩
  · intro a ha
    have hget : objGet (addresses.foldl
        (fun acc a => objSet acc a (((g a).value).getD [])) []) a =
        some (((g a).value).getD []) := by
      rw [objGet_foldl_objSet, if_pos ha]
    refine ⟨hget, ?_⟩
    have hnodup := nodup_keys_foldl addresses
      (fun a => ((g a).value).getD []) [] (by simp)
    exact List.count_eq_one_of_mem hnodup (mem_keys_of_objGet_some hget)
  · intro b hb
    rcases mem_keys_foldl addresses
        (fun a => ((g a).value).getD []) [] b hb with h | h
    · exact h
    · simp at h
  · intro a ha msg hrej
    rw [objGet_foldl_objSet, if_pos ha, hrej]
    rfl

end SimpleClient

namespace StcClient

/-- C9: after the underlying RPC call resolves, `broadcastTransaction`
resolves to a Boolean (never rejects): `true` exactly when the RPC
result is a string of length exactly 66, `false` for every other
result, non-strings and strings of any other length included. -/
theorem broadcastTransaction_true_iff (v : JsValue) :
    broadcastTransaction v = true ↔
      ∃ s, v = JsValue.str s ∧ s.length = 66 := by
  cases v <;> simp [broadcastTransaction]

end StcClient

namespace JsonRPCRequest

/-- C4: a parsed batch response that is not a JSON array is rejected
with the array-shape `ProtocolError`; an array whose length differs
from the request count `n` is rejected with the `ProtocolError` citing
both counts; and an array of the right length has each element
extracted by the single-call rule, correlated strictly by array
position (the `i`-th output is the extraction of the `i`-th response
element). -/
theorem parseBatchResponse_validation (n : Nat) (resp : JsValue) :
    ((∀ xs, resp ≠ JsValue.arr xs) →
      parseBatchResponse n resp = .error (.response
        ("Invalid JSON Batch RPC response, response should be an array"))) ∧
    (∀ xs m, resp = JsValue.arr xs → xs.length ≠ n → m = xs.length →
      parseBatchResponse n resp = .error (.response
        (s!"Invalid JSON Batch RPC response, batch with {n} calls, but got {m} responses"))) ∧
    (∀ xs, resp = JsValue.arr xs → xs.length = n →
      parseBatchResponse n resp = .ok (xs.map parseRPCResponse)) := by
  refine ⟨?_, ?_, ?_⟩
  · intro h
    cases resp with
    | arr xs => exact absurd rfl (h xs)
    | null => rfl
    | bool b => rfl
    | num i => rfl
    | str s => rfl
    | obj fields => rfl
  · intro xs m hresp hne hm
    subst hresp
    subst hm
    simp only [parseBatchResponse]
    rw [if_neg hne]
  · intro xs hresp hl
    subst hresp
    simp only [parseBatchResponse]
    rw [if_pos hl]

/-- Witness for C4: a non-array batch response, a 1-element response
to a 2-call batch (message citing both counts, as in the unit test),
and a correct-length response extracted positionally. -/
theorem parseBatchResponse_validation_witness :
    parseBatchResponse 2 (JsValue.obj []) = .error (.response
      ("Invalid JSON Batch RPC response, response should be an array")) ∧
    parseBatchResponse 2 (JsValue.arr [JsValue.null]) = .error (.response
      ("Invalid JSON Batch RPC response, batch with 2 calls, but got 1 responses")) ∧
    parseBatchResponse 2 (JsValue.arr [JsValue.null, JsValue.null]) =
      .ok [parseRPCResponse JsValue.null, parseRPCResponse JsValue.null] :=
  ⟨(parseBatchResponse_validation 2 (JsValue.obj [])).1
      (fun xs h => JsValue.noConfusion h),
    (parseBatchResponse_validation 2 (JsValue.arr [JsValue.null])).2.1
      [JsValue.null] 1 rfl (by decide) rfl,
    (parseBatchResponse_validation 2
        (JsValue.arr [JsValue.null, JsValue.null])).2.2
      [JsValue.null, JsValue.null] rfl rfl⟩

/-- C5: whenever the `error` field is present in a response object,
the call rejects with the JSON-RPC `ProtocolError` carrying the remote
error object — whether or not a `result` field is also present (the
extraction never consults `result` on this path). -/
theorem parseRPCResponse_error_priority (fields : List (String × JsValue))
    (e : JsValue) (h : assocLookup ("error") fields = some e) :
    parseRPCResponse (JsValue.obj fields) =
      .error (.jsonRpc ("Error JSON PRC response") e) := by
  simp only [parseRPCResponse, JsValue.field, h]

/-- Witness for C5: a response carrying both a `result` field and an
`error` field still rejects with the JSON-RPC error. -/
theorem parseRPCResponse_error_priority_witness :
    assocLookup ("error")
        [("result", JsValue.null), ("error", JsValue.num 7)] =
      some (JsValue.num 7) ∧
    parseRPCResponse (JsValue.obj
        [("result", JsValue.null), ("error", JsValue.num 7)]) =
      .error (.jsonRpc ("Error JSON PRC response") (JsValue.num 7)) :=
  ⟨rfl, parseRPCResponse_error_priority _ _ rfl⟩

/-- C6: for a response object without an `error` field, an absent
`result` key rejects with "result not found", while a present `result`
key whose value is `null` resolves successfully to `null` — explicit
`null` is distinguished from an absent key. -/
theorem parseRPCResponse_null_vs_absent (fields : List (String × JsValue))
    (herr : assocLookup ("error") fields = none) :
    (assocLookup ("result") fields = none →
      parseRPCResponse (JsValue.obj fields) = .error (.response
        ("Invalid JSON RPC response, result not found"))) ∧
    (assocLookup ("result") fields = some JsValue.null →
      parseRPCResponse (JsValue.obj fields) = .ok JsValue.null) := by
  constructor
  · intro h
    simp only [parseRPCResponse, JsValue.field, herr, h]
  · intro h
    simp only [parseRPCResponse, JsValue.field, herr, h]

/-- Witness for C6: `{"jsonrpc":"2.0"}` rejects with "result not
found" while `{"jsonrpc":"2.0","result":null}` resolves to `null`. -/
theorem parseRPCResponse_null_vs_absent_witness :
    parseRPCResponse (JsValue.obj [("jsonrpc", JsValue.str ("2.0"))]) =
      .error (.response ("Invalid JSON RPC response, result not found")) ∧
    parseRPCResponse (JsValue.obj
        [("jsonrpc", JsValue.str ("2.0")), ("result", JsValue.null)]) =
      .ok JsValue.null :=
  ⟨(parseRPCResponse_null_vs_absent
      [("jsonrpc", JsValue.str ("2.0"))] rfl).1 rfl,
    (parseRPCResponse_null_vs_absent
      [("jsonrpc", JsValue.str ("2.0")), ("result", JsValue.null)] rfl).2 rfl⟩

/-- C7: every single-call envelope carries id 0, and the batch
envelope for `N` calls carries ids exactly `0..N-1` in request order;
both builders are pure functions of the one call's arguments alone
(the engine keeps no global counter), so id assignment is local to one
call. -/
theorem request_ids (method : String) (params : JsValue)
    (calls : List (String × JsValue)) :
    (singleCallBody method params).field ("id") = some (JsValue.num 0) ∧
    ∃ xs, batchCallBody calls = JsValue.arr xs ∧
      xs.map (fun x => x.field ("id")) =
        (List.range calls.length).map
          (fun i => some (JsValue.num (Int.ofNat i))) := by
  constructor
  · rfl
  · refine ⟨_, rfl, ?_⟩
    rw [List.map_map]
    have hcomp : ((fun x => JsValue.field x ("id")) ∘
        (fun p : Nat × (String × JsValue) => rpcEnvelope p.1 p.2.1 p.2.2)) =
        (fun i => some (JsValue.num (Int.ofNat i))) ∘ Prod.fst :=
      funext (fun p => rfl)
    rw [hcomp, ← List.map_map, List.enum_map_fst]

end JsonRPCRequest
